import Mathlib

/-!
Shallow embedding of the "I Luv Suits Poker" simulation engine
(`src/lib/simulation-core.ts`, the `simulation.ts` wrapper and the worker
aggregation in `runSimulationInWorkers`), together with theorems settling
the specification claims about it.

JavaScript numbers are modelled by `ℚ` (exact in the additive regime the
engine stays in); the one place where IEEE semantics matters — division,
which can produce `NaN`/`±Infinity` — is modelled by `jsDiv`, which returns
`none` exactly when the JS expression is not a finite quotient.
32-bit integer operations (`>>> 0`, `Math.imul`, `^`, `|`) act on the
32-bit pattern of the operands and are modelled by arithmetic mod `2^32`.
A JS RNG closure (`() => number`) is modelled as a pure stream
`ℕ → ℚ` together with an explicit position that every consumer threads.
-/

namespace ILuvSuits

/-- The four suit symbols `'♠' | '♥' | '♦' | '♣'`. -/
inductive Suit : Type
  | spades
  | hearts
  | diamonds
  | clubs
deriving DecidableEq, Repr

/-- `interface Card { rank: Rank; suit: Suit }`; ranks are 2..14 in the deck. -/
structure Card where
  rank : ℕ
  suit : Suit
deriving DecidableEq, Repr

/-- `getSuitOrder`: spades 0, hearts 1, diamonds 2, clubs 3. -/
def getSuitOrder : Suit → ℕ
  | .spades => 0
  | .hearts => 1
  | .diamonds => 2
  | .clubs => 3

/-- `createDeck()`: suit-major, rank-ascending enumeration of the 52 cards. -/
def createDeck : List Card :=
  [Suit.spades, Suit.hearts, Suit.diamonds, Suit.clubs].flatMap fun s =>
    [2, 3, 4, 5, 6, 7, 8, 9, 10, 11, 12, 13, 14].map fun r => ⟨r, s⟩

/-! ### RNG: `mulberry32` and `stringToSeed` -/

/-- `n % 2^32`, the `>>> 0` / `ToUint32` coercion on a nonnegative value. -/
def toUint32 (n : ℕ) : ℕ := n % 4294967296

/-- One `mulberry32` output computed from the (unbounded) internal counter
`t`: `r = imul(t ^ (t >>> 15), 1 | t); r ^= r + imul(r ^ (r >>> 7), r | 61);
return ((r ^ (r >>> 14)) >>> 0)`.  All bitwise/`imul` steps act on 32-bit
patterns, hence the `toUint32` wrappers. -/
def mulberryScramble (t : ℕ) : ℕ :=
  let t32 := toUint32 t
  let r1 := toUint32 ((t32 ^^^ (t32 >>> 15)) * (t32 ||| 1))
  let r2 := r1 ^^^ toUint32 (r1 + toUint32 ((r1 ^^^ (r1 >>> 7)) * (r1 ||| 61)))
  toUint32 (r2 ^^^ (r2 >>> 14))

/-- The `mulberry32(seed)` closure as a stream: call number `n` (0-based) has
internal state `t = (seed >>> 0) + (n+1) * 0x6D2B79F5` and yields the
scrambled state divided by `2^32`, a rational in `[0,1)`. -/
def mulberry32 (seed : ℕ) : ℕ → ℚ := fun n =>
  (mulberryScramble (toUint32 seed + (n + 1) * 0x6D2B79F5) : ℚ) / 4294967296

/-- `stringToSeed`: FNV-1a over the string's UTF-16 code units
(modelled as a list of naturals): `h ^= code; h = imul(h, 16777619) >>> 0`. -/
def stringToSeed (codes : List ℕ) : ℕ :=
  codes.foldl (fun h c => toUint32 ((h ^^^ toUint32 c) * 16777619)) 2166136261

/-! ### Fisher–Yates shuffle (`shuffleDeckWithRng`) -/

/-- The JS destructuring swap `[a[i], a[j]] = [a[j], a[i]]` on a list.
For the indices the shuffle produces (an RNG yielding values in `[0,1)`)
both indices are always in range; out-of-range indices leave the list
unchanged. -/
def swapList (l : List Card) (i j : ℕ) : List Card :=
  match l[i]?, l[j]? with
  | some a, some b => (l.set i b).set j a
  | _, _ => l

/-- The loop `for (i = len-1; i > 0; i--) { j = floor(rng()*(i+1)); swap i j }`,
with the RNG stream `f` read at successive positions starting at `pos`.
The fuel argument is the current value of `i`. -/
def fisherYates (f : ℕ → ℚ) : ℕ → ℕ → List Card → List Card × ℕ
  | 0, pos, l => (l, pos)
  | i + 1, pos, l =>
    let j := (Int.floor (f pos * (i + 2))).toNat
    fisherYates f i (pos + 1) (swapList l (i + 1) j)

/-- `shuffleDeckWithRng(deck, rng)`: copies the deck and runs Fisher–Yates;
returns the shuffled copy and the RNG position after the 51 draws. -/
def shuffleDeckWithRng (deck : List Card) (f : ℕ → ℚ) (pos : ℕ) :
    List Card × ℕ :=
  fisherYates f (deck.length - 1) pos deck

/-! ### Sorting and flush evaluation -/

/-- The comparator of `sortHandBySuitThenRank` as a total preorder:
first ascending suit order, then descending rank. -/
def cardBefore (a b : Card) : Prop :=
  getSuitOrder a.suit < getSuitOrder b.suit ∨
    (a.suit = b.suit ∧ b.rank ≤ a.rank)

instance : DecidableRel cardBefore := fun a b =>
  decidable_of_iff
    (getSuitOrder a.suit < getSuitOrder b.suit ∨
      (a.suit = b.suit ∧ b.rank ≤ a.rank)) Iff.rfl

/-- `sortHandBySuitThenRank(cards)`.  The JS `Array.sort` comparator returns 0
only on value-identical cards, so every comparison sort yields the same list;
we use insertion sort, which the kernel can evaluate. -/
def sortHandBySuitThenRank (cards : List Card) : List Card :=
  cards.insertionSort cardBefore

/-- Descending-rank preorder used when a suit group is sorted on its own
(`slice().sort((a,b) => b.rank - a.rank)`). -/
def rankGE (a b : Card) : Prop := b.rank ≤ a.rank

instance : DecidableRel rankGE := fun a b =>
  decidable_of_iff (b.rank ≤ a.rank) Iff.rfl

/-- Ascending-rank preorder (`sort((a,b) => a.rank - b.rank)`). -/
def rankLE (a b : Card) : Prop := a.rank ≤ b.rank

instance : DecidableRel rankLE := fun a b =>
  decidable_of_iff (a.rank ≤ b.rank) Iff.rfl

/-- `slice().sort((a,b) => b.rank - a.rank)` on a suit group (all cards share
one suit, so again the comparator is 0 only on identical values). -/
def sortDescByRank (l : List Card) : List Card := l.insertionSort rankGE

/-- The suits of `cards` in first-occurrence order: the key order of the
`suitGroups` object built by `cards.forEach(...)`. -/
def suitKeys (cards : List Card) : List Suit :=
  cards.foldl (fun acc c => if c.suit ∈ acc then acc else acc ++ [c.suit]) []

/-- `Object.values(suitGroups)`: the per-suit card groups in key order, each
group in input order. -/
def suitGroupsOf (cards : List Card) : List (List Card) :=
  (suitKeys cards).map fun s => cards.filter fun c => c.suit = s

/-- The rank-comparison loop of `compareFlushes` (first differing rank). -/
def compareRanks : List Card → List Card → ℤ
  | a :: as, b :: bs =>
    if (a.rank : ℤ) - b.rank ≠ 0 then (a.rank : ℤ) - b.rank
    else compareRanks as bs
  | _, _ => 0

/-- `compareFlushes(first, second)`: longer flush wins, else first differing
rank from the top, else 0. -/
def compareFlushes (first second : List Card) : ℤ :=
  if (first.length : ℤ) - second.length ≠ 0 then
    (first.length : ℤ) - second.length
  else compareRanks first second

/-- `findBestFlush(cards)`: reduce the suit groups with
`compareFlushes(current, best) > 0 ? current : best`, starting from `[]`. -/
def findBestFlush (cards : List Card) : List Card :=
  (suitGroupsOf cards).foldl
    (fun best cur => if compareFlushes cur best > 0 then cur else best) []

/-! ### `findLongestStraightFlush` -/

/-- The inner `j` loop: extend the straight while the next rank is exactly one
less than the current value; stop at a gap; skip equal ranks. -/
def runFrom (current : ℤ) : List Card → List Card
  | [] => []
  | c :: rest =>
    if (c.rank : ℤ) = current - 1 then c :: runFrom c.rank rest
    else if (c.rank : ℤ) < current - 1 then []
    else runFrom current rest

/-- The outer `i` loop: the straight started at each position of the
descending-sorted suit group. -/
def straightsFrom : List Card → List (List Card)
  | [] => []
  | c :: rest => (c :: runFrom c.rank rest) :: straightsFrom rest

/-- `if (straight.length > longest.length) longest = straight`. -/
def keepLonger (best cand : List Card) : List Card :=
  if cand.length > best.length then cand else best

/-- The ace-low scan: walk the suit group from its lowest card upward looking
for ranks 2, 3, …, stopping after rank 6 (`expectedRank <= 6`). -/
def wheelScan (expected : ℕ) : List Card → List Card
  | [] => []
  | c :: rest =>
    if expected > 6 then []
    else if c.rank = expected then c :: wheelScan (expected + 1) rest
    else []

/-- The ace-low candidate of a descending-sorted suit group: present ace
followed by the consecutive low cards, the tail re-sorted ascending
(`[aceCard, ...aceLowStraight.slice(1).sort((a,b) => a.rank - b.rank)]`). -/
def aceLowCandidate (g : List Card) : List Card :=
  match g with
  | [] => []
  | ace :: rest =>
    if ace.rank = 14 then
      ace :: (wheelScan 2 rest.reverse).insertionSort rankLE
    else []

/-- The per-suit-group body of `findLongestStraightFlush`: skip groups with
fewer than 3 cards; otherwise fold the started straights into the running
longest and then try the ace-low candidate (kept when it has length ≥ 3 and
is strictly longer). -/
def lsfStep (longest g : List Card) : List Card :=
  if g.length < 3 then longest
  else
    let g' := sortDescByRank g
    let afterMain := (straightsFrom g').foldl keepLonger longest
    let aceCand := aceLowCandidate g'
    if 3 ≤ aceCand.length ∧ afterMain.length < aceCand.length then aceCand
    else afterMain

/-- `findLongestStraightFlush(cards)`. -/
def findLongestStraightFlush (cards : List Card) : List Card :=
  (suitGroupsOf cards).foldl lsfStep []

/-! ### Bet resolver -/

/-- `dealerQualifies(dealerFlush)`: length > 3 qualifies, < 3 does not,
exactly 3 qualifies iff the top card is 9 or higher. -/
def dealerQualifies : List Card → Bool
  | [] => false
  | c :: rest =>
    if (c :: rest).length > 3 then true
    else if (c :: rest).length < 3 then false
    else decide (9 ≤ c.rank)

/-- `getMaxPlayWager(flushCards, anteAmount)`. -/
def getMaxPlayWager (flushCards : ℕ) (anteAmount : ℚ) : ℚ :=
  if flushCards ≥ 6 then anteAmount * 3
  else if flushCards ≥ 5 then anteAmount * 2
  else anteAmount * 1

/-- `PayoutConfig.flushRush`. -/
structure FlushRushTable where
  sevenCard : ℚ
  sixCard : ℚ
  fiveCard : ℚ
  fourCard : ℚ
deriving DecidableEq, Repr

/-- `PayoutConfig.superFlushRush`. -/
structure SuperFlushRushTable where
  sevenCardStraight : ℚ
  sixCardStraight : ℚ
  fiveCardStraight : ℚ
  fourCardStraight : ℚ
  threeCardStraight : ℚ
deriving DecidableEq, Repr

/-- `PayoutConfig`. -/
structure PayoutConfig where
  flushRush : FlushRushTable
  superFlushRush : SuperFlushRushTable
deriving DecidableEq, Repr

/-- `calculateFlushRushPayout(flushCards, payoutConfig)`. -/
def calculateFlushRushPayout (flushCards : ℕ) (cfg : PayoutConfig) : ℚ :=
  if flushCards ≥ 7 then cfg.flushRush.sevenCard
  else if flushCards ≥ 6 then cfg.flushRush.sixCard
  else if flushCards ≥ 5 then cfg.flushRush.fiveCard
  else if flushCards ≥ 4 then cfg.flushRush.fourCard
  else 0

/-- `calculateSuperFlushRushPayout(straightFlushCards, payoutConfig)`. -/
def calculateSuperFlushRushPayout (n : ℕ) (cfg : PayoutConfig) : ℚ :=
  if n ≥ 7 then cfg.superFlushRush.sevenCardStraight
  else if n ≥ 6 then cfg.superFlushRush.sixCardStraight
  else if n ≥ 5 then cfg.superFlushRush.fiveCardStraight
  else if n ≥ 4 then cfg.superFlushRush.fourCardStraight
  else if n ≥ 3 then cfg.superFlushRush.threeCardStraight
  else 0

/-- The fixed unit stakes of `performSimulation`. -/
def anteAmount : ℚ := 1

/-- `flushRushBet = 1`. -/
def flushRushBet : ℚ := 1

/-- `superFlushRushBet = 1`. -/
def superFlushRushBet : ℚ := 1

/-- `highCardValue = playerFlush.length > 0 ? playerFlush[0].rank : 0`. -/
def highCardValue : List Card → ℕ
  | [] => 0
  | c :: _ => c.rank

/-- The fold decision of `performSimulation` (simulation-core.ts line 236):
`playerFlush.length < 3 || (playerFlush.length === 3 &&
minThreeCardFlushRank !== 0 && highCardValue < minThreeCardFlushRank)`. -/
def shouldFold (playerFlush : List Card) (minThreeCardFlushRank : ℕ) : Bool :=
  decide (playerFlush.length < 3) ||
    (decide (playerFlush.length = 3) && decide (minThreeCardFlushRank ≠ 0) &&
      decide (highCardValue playerFlush < minThreeCardFlushRank))

/-- `getPlayWager(flushCards, highCardValue, anteAmount, minThreeCardFlushRank)`
from the legacy main-thread engine `src/lib/simulation.ts`; the play wager is 0
(fold) unless the flush has ≥ 5 cards or has ≥ 3 cards with a high card at or
above the threshold. -/
def getPlayWager (flushCards highCard : ℕ) (ante : ℚ)
    (minThreeCardFlushRank : ℕ) : ℚ :=
  if flushCards ≥ 6 then ante * 3
  else if flushCards ≥ 5 then ante * 2
  else if flushCards ≥ 3 ∧ highCard ≥ minThreeCardFlushRank then ante * 1
  else 0

/-- The fold decision of the legacy engine: `shouldFold = playWager === 0`
(src/lib/simulation.ts line 266), with `anteAmount = 1`. -/
def legacyShouldFold (playerFlush : List Card) (minThreeCardFlushRank : ℕ) :
    Bool :=
  decide (getPlayWager playerFlush.length (highCardValue playerFlush) 1
    minThreeCardFlushRank = 0)

/-! ### Simulation driver (`performSimulation`) -/

/-- One `betTotals` accumulator. -/
structure BetTotals where
  totalBet : ℚ
  totalWon : ℚ
  handsWon : ℕ
  handsLost : ℕ
deriving DecidableEq, Repr

/-- The zero accumulator. -/
def zeroBT : BetTotals := ⟨0, 0, 0, 0⟩

/-- Base-game resolution for one hand (simulation-core.ts lines 243–265). -/
def baseGameStep (playerFlush dealerFlush : List Card)
    (minThreeCardFlushRank : ℕ) (bt : BetTotals) : BetTotals :=
  if shouldFold playerFlush minThreeCardFlushRank then
    { bt with totalBet := bt.totalBet + anteAmount,
              handsLost := bt.handsLost + 1 }
  else
    let playWager := getMaxPlayWager playerFlush.length anteAmount
    let totalWager := anteAmount + playWager
    let bt := { bt with totalBet := bt.totalBet + totalWager }
    if ¬ dealerQualifies dealerFlush then
      { bt with totalWon := bt.totalWon + (totalWager + anteAmount),
                handsWon := bt.handsWon + 1 }
    else
      let comparison := compareFlushes playerFlush dealerFlush
      if comparison > 0 then
        { bt with totalWon := bt.totalWon + (totalWager + totalWager),
                  handsWon := bt.handsWon + 1 }
      else if comparison < 0 then
        { bt with handsLost := bt.handsLost + 1 }
      else
        { bt with totalWon := bt.totalWon + totalWager }

/-- Flush Rush side-bet resolution for one hand (lines 267–275). -/
def flushRushStep (flushLen : ℕ) (cfg : PayoutConfig) (bt : BetTotals) :
    BetTotals :=
  let mult := calculateFlushRushPayout flushLen cfg
  let payout := if mult > 0 then flushRushBet * mult else 0
  let bt := { bt with totalBet := bt.totalBet + flushRushBet }
  if payout > 0 then
    { bt with totalWon := bt.totalWon + (flushRushBet + payout),
              handsWon := bt.handsWon + 1 }
  else
    { bt with handsLost := bt.handsLost + 1 }

/-- Super Flush Rush side-bet resolution for one hand (lines 277–285). -/
def superFlushRushStep (straightFlushLen : ℕ) (cfg : PayoutConfig)
    (bt : BetTotals) : BetTotals :=
  let mult := calculateSuperFlushRushPayout straightFlushLen cfg
  let payout := if mult > 0 then superFlushRushBet * mult else 0
  let bt := { bt with totalBet := bt.totalBet + superFlushRushBet }
  if payout > 0 then
    { bt with totalWon := bt.totalWon + (superFlushRushBet + payout),
              handsWon := bt.handsWon + 1 }
  else
    { bt with handsLost := bt.handsLost + 1 }

/-- The mutable state of the hand loop: the three per-bet accumulators and the
hand-distribution counters. -/
structure SimAccum where
  base : BetTotals
  flushRush : BetTotals
  superFlushRush : BetTotals
  aboveMin : ℕ
  belowMin : ℕ
deriving DecidableEq, Repr

/-- Initial loop state. -/
def initAccum : SimAccum := ⟨zeroBT, zeroBT, zeroBT, 0, 0⟩

/-- The body of the hand loop, given the two sorted 7-card deals. -/
def handStep (cfg : PayoutConfig) (minThreeCardFlushRank : ℕ)
    (playerCards dealerCards : List Card) (st : SimAccum) : SimAccum :=
  let playerHand := sortHandBySuitThenRank playerCards
  let dealerHand := sortHandBySuitThenRank dealerCards
  let playerFlush := findBestFlush playerHand
  let dealerFlush := findBestFlush dealerHand
  let playerStraightFlush := findLongestStraightFlush playerHand
  let fold := shouldFold playerFlush minThreeCardFlushRank
  { base := baseGameStep playerFlush dealerFlush minThreeCardFlushRank st.base,
    flushRush := flushRushStep playerFlush.length cfg st.flushRush,
    superFlushRush :=
      superFlushRushStep playerStraightFlush.length cfg st.superFlushRush,
    aboveMin := st.aboveMin + if fold then 0 else 1,
    belowMin := st.belowMin + if fold then 1 else 0 }

/-- The hand loop: shuffle the canonical deck with the RNG stream, deal
`slice(0,7)` and `slice(7,14)`, resolve, repeat. -/
def simLoop (cfg : PayoutConfig) (minThreeCardFlushRank : ℕ) (f : ℕ → ℚ) :
    ℕ → ℕ → SimAccum → SimAccum × ℕ
  | 0, pos, st => (st, pos)
  | n + 1, pos, st =>
    let s := shuffleDeckWithRng createDeck f pos
    let playerCards := s.1.take 7
    let dealerCards := (s.1.drop 7).take 7
    simLoop cfg minThreeCardFlushRank f n s.2
      (handStep cfg minThreeCardFlushRank playerCards dealerCards st)

/-- The accumulators after `performSimulation(numHands, …)`'s loop. -/
def performSimulationAccum (numHands : ℕ) (cfg : PayoutConfig)
    (minThreeCardFlushRank : ℕ) (f : ℕ → ℚ) : SimAccum :=
  (simLoop cfg minThreeCardFlushRank f numHands 0 initAccum).1

/-! ### Summary derivation -/

/-- IEEE division as performed by the JS engine: `none` when the divisor is 0
(the JS value is then `NaN` or `±Infinity`, never a finite number). -/
def jsDiv (a b : ℚ) : Option ℚ := if b = 0 then none else some (a / b)

/-- The bet-type labels, a closed set keyed in the source by display string. -/
inductive BetType : Type
  | baseGame
  | flushRushBonus
  | superFlushRushBonus
deriving DecidableEq, Repr

/-- One `SimulationResult` row of `performSimulation`; the two derived
percentages are unguarded JS divisions and hence `Option ℚ`. -/
structure SimulationResultR where
  betType : BetType
  totalBet : ℚ
  totalWon : ℚ
  expectedReturn : Option ℚ
  handsWon : ℕ
  handsLost : ℕ
  winRate : Option ℚ
deriving DecidableEq, Repr

/-- Lines 295–308: `expectedReturn = ((totalWon - totalBet) / totalBet) * 100`
and `winRate = (handsWon / (handsWon + handsLost)) * 100`, both unguarded. -/
def deriveResult (k : BetType) (bt : BetTotals) : SimulationResultR :=
  { betType := k
    totalBet := bt.totalBet
    totalWon := bt.totalWon
    expectedReturn := (jsDiv (bt.totalWon - bt.totalBet) bt.totalBet).map
      (· * 100)
    handsWon := bt.handsWon
    handsLost := bt.handsLost
    winRate :=
      (jsDiv (bt.handsWon : ℚ) ((bt.handsWon : ℚ) + bt.handsLost)).map
        (· * 100) }

/-- `HandDistributionStats` with its two unguarded derived percentages. -/
structure HandDistributionStatsR where
  totalHands : ℕ
  aboveMinimum : ℕ
  belowMinimum : ℕ
  aboveMinimumPercentage : Option ℚ
  belowMinimumPercentage : Option ℚ
deriving DecidableEq, Repr

/-- `SimulationSummary` as returned by `performSimulation`. -/
structure SimulationSummaryR where
  results : List SimulationResultR
  handDistribution : HandDistributionStatsR
deriving DecidableEq, Repr

/-- `performSimulation(numHands, payoutConfig, minThreeCardFlushRank, rng)`:
run the loop, then derive the three result rows and the distribution stats. -/
def performSimulation (numHands : ℕ) (cfg : PayoutConfig)
    (minThreeCardFlushRank : ℕ) (f : ℕ → ℚ) : SimulationSummaryR :=
  let acc := performSimulationAccum numHands cfg minThreeCardFlushRank f
  { results :=
      [deriveResult .baseGame acc.base,
       deriveResult .flushRushBonus acc.flushRush,
       deriveResult .superFlushRushBonus acc.superFlushRush]
    handDistribution :=
      { totalHands := numHands
        aboveMinimum := acc.aboveMin
        belowMinimum := acc.belowMin
        aboveMinimumPercentage :=
          (jsDiv (acc.aboveMin : ℚ) (numHands : ℚ)).map (· * 100)
        belowMinimumPercentage :=
          (jsDiv (acc.belowMin : ℚ) (numHands : ℚ)).map (· * 100) } }

/-! ### Entry point (`simulateHands`) -/

/-- A user-supplied seed: a JS number (nonnegative integer model) or a string
(its UTF-16 code units). -/
def normalizeSeed : ℕ ⊕ List ℕ → ℕ
  | .inl n => toUint32 n
  | .inr codes => stringToSeed codes

/-- `simulateHands(numHands, payoutConfig, minThreeCardFlushRank, _, seed?)`:
with a seed, the RNG is `mulberry32(seed)`; without one, the engine falls back
to an ambient entropy source (crypto/`Math.random`), modelled by the `ambient`
stream. -/
def simulateHands (ambient : ℕ → ℚ) (numHands : ℕ) (cfg : PayoutConfig)
    (minThreeCardFlushRank : ℕ) (seed : Option (ℕ ⊕ List ℕ)) :
    SimulationSummaryR :=
  match seed with
  | some s =>
    performSimulation numHands cfg minThreeCardFlushRank
      (mulberry32 (normalizeSeed s))
  | none => performSimulation numHands cfg minThreeCardFlushRank ambient

/-! ### Worker aggregation (`runSimulationInWorkers`, lines 132–171) -/

/-- Field-wise sum of two accumulators (`existing.x += r.x`). -/
def addBT (a b : BetTotals) : BetTotals :=
  ⟨a.totalBet + b.totalBet, a.totalWon + b.totalWon,
   a.handsWon + b.handsWon, a.handsLost + b.handsLost⟩

/-- The totals of one result row. -/
def rowTotals (r : SimulationResultR) : BetTotals :=
  ⟨r.totalBet, r.totalWon, r.handsWon, r.handsLost⟩

/-- `totalsMap.set(k, v)` on the insertion-ordered association list. -/
def setAssoc : List (BetType × BetTotals) → BetType → BetTotals →
    List (BetType × BetTotals)
  | [], k, v => [(k, v)]
  | (k', v') :: rest, k, v =>
    if k' = k then (k, v) :: rest else (k', v') :: setAssoc rest k v

/-- `totalsMap.get(k) ?? zeros`. -/
def getAssoc (m : List (BetType × BetTotals)) (k : BetType) : BetTotals :=
  match m.find? (fun p => p.1 = k) with
  | some p => p.2
  | none => zeroBT

/-- Accumulate one worker result row into the totals map. -/
def mergeRow (m : List (BetType × BetTotals)) (r : SimulationResultR) :
    List (BetType × BetTotals) :=
  setAssoc m r.betType (addBT (getAssoc m r.betType) (rowTotals r))

/-- Accumulate all rows of all worker parts, in completion-list order. -/
def mergeParts (parts : List SimulationSummaryR) :
    List (BetType × BetTotals) :=
  parts.foldl (fun m part => part.results.foldl mergeRow m) []

/-- The guarded recomputation of `expectedReturn` on merged totals
(line 157): `totalBet > 0 ? ((totalWon-totalBet)/totalBet)*100 : 0`. -/
def mergedExpectedReturn (d : BetTotals) : ℚ :=
  if d.totalBet > 0 then (d.totalWon - d.totalBet) / d.totalBet * 100 else 0

/-- The guarded recomputation of `winRate` on merged totals (line 158). -/
def mergedWinRate (d : BetTotals) : ℚ :=
  if ((d.handsWon : ℚ) + d.handsLost) > 0 then
    (d.handsWon : ℚ) / ((d.handsWon : ℚ) + d.handsLost) * 100
  else 0

/-- One combined result row; the aggregator's percentages are plain numbers
(the guards make the divisions total). -/
structure MergedResultR where
  betType : BetType
  totalBet : ℚ
  totalWon : ℚ
  expectedReturn : ℚ
  handsWon : ℕ
  handsLost : ℕ
  winRate : ℚ
deriving DecidableEq, Repr

/-- The merged `handDistribution` with its guarded percentages
(lines 162–168). -/
structure MergedDistributionR where
  totalHands : ℕ
  aboveMinimum : ℕ
  belowMinimum : ℕ
  aboveMinimumPercentage : ℚ
  belowMinimumPercentage : ℚ
deriving DecidableEq, Repr

/-- The aggregated summary resolved by `runSimulationInWorkers`. -/
structure MergedSummaryR where
  results : List MergedResultR
  handDistribution : MergedDistributionR
deriving DecidableEq, Repr

/-- Build one combined row from a totals-map entry. -/
def mergedRow (p : BetType × BetTotals) : MergedResultR :=
  { betType := p.1
    totalBet := p.2.totalBet
    totalWon := p.2.totalWon
    expectedReturn := mergedExpectedReturn p.2
    handsWon := p.2.handsWon
    handsLost := p.2.handsLost
    winRate := mergedWinRate p.2 }

/-- The aggregation step of `runSimulationInWorkers` on the completed worker
parts: sum every accumulator field per bet type, recompute the percentages
once on the merged totals, and sum the hand-distribution counts. -/
def aggregateParts (parts : List SimulationSummaryR) : MergedSummaryR :=
  let m := mergeParts parts
  let totalHands :=
    parts.foldl (fun a p => a + p.handDistribution.totalHands) 0
  let totalAbove :=
    parts.foldl (fun a p => a + p.handDistribution.aboveMinimum) 0
  let totalBelow :=
    parts.foldl (fun a p => a + p.handDistribution.belowMinimum) 0
  { results := m.map mergedRow
    handDistribution :=
      { totalHands := totalHands
        aboveMinimum := totalAbove
        belowMinimum := totalBelow
        aboveMinimumPercentage :=
          if totalHands > 0 then
            (totalAbove : ℚ) / (totalHands : ℚ) * 100
          else 0
        belowMinimumPercentage :=
          if totalHands > 0 then
            (totalBelow : ℚ) / (totalHands : ℚ) * 100
          else 0 } }

/-! ### Spec-side definitions and concrete fixtures used by the claims -/

/-- The fold-decision formula as the spec states it:
`shouldFold = (flushLength < 3) OR (flushLength == 3 AND threshold != 0 AND
highCard < threshold)`. -/
def specShouldFold (flushLength highCard threshold : ℕ) : Bool :=
  decide (flushLength < 3) ||
    (decide (flushLength = 3) && decide (threshold ≠ 0) &&
      decide (highCard < threshold))

/-- The default payout tables shipped with the simulator. -/
def defaultPayoutConfig : PayoutConfig :=
  ⟨⟨100, 20, 10, 2⟩, ⟨500, 200, 100, 50, 9⟩⟩

/-- A constant RNG stream (used to instantiate universally quantified
theorems at a concrete input). -/
def zeroStream : ℕ → ℚ := fun _ => 0

/-- A constant RNG stream with value 1/2, inside `[0,1)`. -/
def halfStream : ℕ → ℚ := fun _ => 1 / 2

/-- A 4-card diamond flush whose high card is 8: a hand on which the legacy
`getPlayWager` engine folds below a threshold of 9. -/
def fourCardEightHighFlush : List Card :=
  [⟨8, .diamonds⟩, ⟨7, .diamonds⟩, ⟨5, .diamonds⟩, ⟨3, .diamonds⟩]

/-- The summary produced by a zero-hand run: all accumulators zero and every
derived percentage `NaN` (`none`). -/
def zeroHandSummary : SimulationSummaryR :=
  { results :=
      [deriveResult .baseGame zeroBT,
       deriveResult .flushRushBonus zeroBT,
       deriveResult .superFlushRushBonus zeroBT]
    handDistribution :=
      { totalHands := 0
        aboveMinimum := 0
        belowMinimum := 0
        aboveMinimumPercentage := none
        belowMinimumPercentage := none } }

/-- The ace-low wheel test hand `[A♥,5♥,4♥,3♥,2♥]`. -/
def wheelHandEx : List Card :=
  [⟨14, .hearts⟩, ⟨5, .hearts⟩, ⟨4, .hearts⟩, ⟨3, .hearts⟩, ⟨2, .hearts⟩]

/-- The 4-card straight-flush test hand `[7♠,6♠,5♠,4♠]`. -/
def fourSpadesEx : List Card :=
  [⟨7, .spades⟩, ⟨6, .spades⟩, ⟨5, .spades⟩, ⟨4, .spades⟩]

/-- A 7-card hand whose only suit group of size ≥ 3 holds no consecutive pair
(`A♠ 2♠ 9♠`), while the two hearts `7♥ 6♥` form a 2-card run: the code skips
the hearts group and drops the 2-card `A♠ 2♠` wheel. -/
def mixedSuitHandEx : List Card :=
  [⟨14, .spades⟩, ⟨2, .spades⟩, ⟨9, .spades⟩, ⟨7, .hearts⟩, ⟨6, .hearts⟩,
   ⟨3, .diamonds⟩, ⟨10, .clubs⟩]

/-- Per-suit length as the claim words it: the longest started straight and
the ace-low wheel candidate, with every suit group and any run length ≥ 1
considered. -/
def claimSuitLen (g : List Card) : ℕ :=
  let g' := sortDescByRank g
  max (((straightsFrom g').map List.length).foldl max 0)
    (aceLowCandidate g').length

/-- `findLongestStraightFlush` as the claim (C5) describes it: the maximum of
`claimSuitLen` over all suit groups. -/
def specLSFLenClaim (cards : List Card) : ℕ :=
  ((suitGroupsOf cards).map claimSuitLen).foldl max 0

/-- Per-suit length as the code actually gates it: suit groups with fewer
than 3 cards contribute 0, and the ace-low wheel counts only when its length
is at least 3. -/
def amendedSuitLen (g : List Card) : ℕ :=
  if g.length < 3 then 0
  else
    let g' := sortDescByRank g
    max (((straightsFrom g').map List.length).foldl max 0)
      (if 3 ≤ (aceLowCandidate g').length then (aceLowCandidate g').length
       else 0)

/-- The amended spec-side description of `findLongestStraightFlush`'s
length. -/
def specLSFLen (cards : List Card) : ℕ :=
  ((suitGroupsOf cards).map amendedSuitLen).foldl max 0

/-- Every card of the list has the suit of the first card. -/
def allSameSuit : List Card → Bool
  | [] => true
  | c :: rest => rest.all fun d => decide (d.suit = c.suit)

/-- A concrete 7-card hand used to instantiate the `findBestFlush`
invariants. -/
def c9HandEx : List Card :=
  [⟨9, .spades⟩, ⟨8, .spades⟩, ⟨7, .spades⟩, ⟨6, .spades⟩, ⟨14, .hearts⟩,
   ⟨13, .hearts⟩, ⟨12, .hearts⟩]

/-- A played 3-card spade flush `A♠ K♠ Q♠`. -/
def playedFlushEx : List Card :=
  [⟨14, .spades⟩, ⟨13, .spades⟩, ⟨12, .spades⟩]

/-- A dealer flush that does not qualify (3 cards, 8 high). -/
def dealerNoQualEx : List Card :=
  [⟨8, .hearts⟩, ⟨7, .hearts⟩, ⟨5, .hearts⟩]

/-- A qualifying dealer flush the player beats (3 cards, 9 high). -/
def dealerQualEx : List Card :=
  [⟨9, .hearts⟩, ⟨7, .hearts⟩, ⟨5, .hearts⟩]

/-- A qualifying dealer flush that ties `playedFlushEx` rank-for-rank. -/
def dealerTieEx : List Card :=
  [⟨14, .hearts⟩, ⟨13, .hearts⟩, ⟨12, .hearts⟩]

/-- The accumulators of one worker's independently-run simulation. -/
def partAccum (cfg : PayoutConfig) (minThreeCardFlushRank : ℕ)
    (p : ℕ × ℕ) : SimAccum :=
  performSimulationAccum p.1 cfg minThreeCardFlushRank (mulberry32 p.2)

/-- Field-wise sum of a list of accumulators. -/
def sumBT (l : List BetTotals) : BetTotals := l.foldl addBT zeroBT

/-- The aggregated summary the spec prescribes for worker parts with hand
counts and seeds `pairs`: field-wise sums of the `k` independently-run
simulations, with the percentages recomputed once from the merged totals. -/
def specAggregatedSummary (cfg : PayoutConfig) (minThreeCardFlushRank : ℕ)
    (pairs : List (ℕ × ℕ)) : MergedSummaryR :=
  let accs := pairs.map (partAccum cfg minThreeCardFlushRank)
  let sb := sumBT (accs.map SimAccum.base)
  let sf := sumBT (accs.map SimAccum.flushRush)
  let ss := sumBT (accs.map SimAccum.superFlushRush)
  let totalHands := pairs.foldl (fun a p => a + p.1) 0
  let totalAbove :=
    pairs.foldl
      (fun a p => a + (partAccum cfg minThreeCardFlushRank p).aboveMin) 0
  let totalBelow :=
    pairs.foldl
      (fun a p => a + (partAccum cfg minThreeCardFlushRank p).belowMin) 0
  { results :=
      [mergedRow (.baseGame, sb), mergedRow (.flushRushBonus, sf),
       mergedRow (.superFlushRushBonus, ss)]
    handDistribution :=
      { totalHands := totalHands
        aboveMinimum := totalAbove
        belowMinimum := totalBelow
        aboveMinimumPercentage :=
          if totalHands > 0 then (totalAbove : ℚ) / (totalHands : ℚ) * 100
          else 0
        belowMinimumPercentage :=
          if totalHands > 0 then (totalBelow : ℚ) / (totalHands : ℚ) * 100
          else 0 } }

/-! ## Theorems -/

/-- C1: the engine's fold decision (simulation-core line 236) is exactly the
spec formula `shouldFold = (flushLength < 3) OR (flushLength == 3 AND
threshold != 0 AND highCard < threshold)`, so flushes of length ≥ 4 are always
played; the legacy `getPlayWager` engine however returns a 0 play wager — a
fold — for the 4-card 8-high flush under threshold 9, where the formula says
play. -/
theorem c1_fold_decision :
    (∀ (playerFlush : List Card) (r : ℕ),
        shouldFold playerFlush r =
          specShouldFold playerFlush.length (highCardValue playerFlush) r) ∧
    (∀ (c₁ c₂ c₃ c₄ : Card) (rest : List Card) (r : ℕ),
        shouldFold (c₁ :: c₂ :: c₃ :: c₄ :: rest) r = false) ∧
    getPlayWager 4 8 1 9 = 0 ∧
    legacyShouldFold fourCardEightHighFlush 9 = true ∧
    specShouldFold 4 8 9 = false := by
  refine ⟨fun pf r => rfl, fun c₁ c₂ c₃ c₄ rest r => ?_, by decide, by decide,
    by decide⟩
  simp only [shouldFold, List.length_cons, Bool.or_eq_false_iff,
    Bool.and_eq_false_iff, decide_eq_false_iff_not]
  omega

/-- C3: with a seed supplied, `simulateHands` ignores the ambient entropy
source entirely, so two invocations with the same `(numHands, payoutConfig,
minThreeCardFlushRank, seed)` — under any ambient entropy — return identical
summaries: the seeded run, including its mulberry32 stream, is fully
deterministic. -/
theorem c3_seeded_determinism :
    ∀ (ambient₁ ambient₂ : ℕ → ℚ) (numHands : ℕ) (cfg : PayoutConfig)
      (minRank : ℕ) (s : ℕ ⊕ List ℕ),
      simulateHands ambient₁ numHands cfg minRank (some s) =
        simulateHands ambient₂ numHands cfg minRank (some s) :=
  fun _ _ _ _ _ _ => rfl

/-- C8 counterexample: calling the entry point with `numHands = 0` does not
fail with a validation error — it returns a well-defined summary (with all
accumulators zero and `NaN` percentages). -/
theorem c8_counterexample :
    simulateHands zeroStream 0 defaultPayoutConfig 9 (some (Sum.inl 42)) =
      zeroHandSummary ∧
    zeroHandSummary.results.length = 3 := by
  exact ⟨rfl, rfl⟩

/-- C8 amended: no validation is performed at all; for `numHands ≤ 0` the
hand loop simply never executes and the entry point returns the zero-hand
summary, whose accumulators are all zero and whose derived percentages are
`NaN` (`none`). -/
theorem c8_amended :
    ∀ (ambient : ℕ → ℚ) (cfg : PayoutConfig) (minRank : ℕ)
      (seed : Option (ℕ ⊕ List ℕ)),
      simulateHands ambient 0 cfg minRank seed = zeroHandSummary := by
  intro ambient cfg r seed
  cases seed with
  | none => rfl
  | some s => rfl

/-- C2 counterexample: `performSimulation` derives its percentages with
unguarded divisions; on a run whose accumulators have zero denominators
(`numHands = 0`) every `expectedReturn`/`winRate` is `NaN` (`none`), not 0. -/
theorem c2_counterexample :
    ((performSimulation 0 defaultPayoutConfig 9 zeroStream).results.map
        SimulationResultR.expectedReturn = [none, none, none]) ∧
    ((performSimulation 0 defaultPayoutConfig 9 zeroStream).results.map
        SimulationResultR.winRate = [none, none, none]) ∧
    ((performSimulation 0 defaultPayoutConfig 9 zeroStream).results.map
        SimulationResultR.totalBet = [0, 0, 0]) ∧
    (performSimulation 0 defaultPayoutConfig 9 zeroStream).results.map
        SimulationResultR.expectedReturn ≠ [some 0, some 0, some 0] := by
  refine ⟨?_, ?_, ?_, ?_⟩ <;>
    simp [performSimulation, performSimulationAccum, simLoop, initAccum,
      deriveResult, jsDiv, zeroBT]

/-- Each hand settles the Flush Rush bet exactly once and stakes one unit. -/
theorem flushRushStep_fields (L : ℕ) (cfg : PayoutConfig) (bt : BetTotals) :
    (flushRushStep L cfg bt).handsWon + (flushRushStep L cfg bt).handsLost =
      bt.handsWon + bt.handsLost + 1 ∧
    (flushRushStep L cfg bt).totalBet = bt.totalBet + 1 := by
  simp only [flushRushStep, flushRushBet]
  split_ifs <;> simp <;> omega

/-- Each hand settles the Super Flush Rush bet exactly once and stakes one
unit. -/
theorem superFlushRushStep_fields (L : ℕ) (cfg : PayoutConfig)
    (bt : BetTotals) :
    (superFlushRushStep L cfg bt).handsWon +
        (superFlushRushStep L cfg bt).handsLost =
      bt.handsWon + bt.handsLost + 1 ∧
    (superFlushRushStep L cfg bt).totalBet = bt.totalBet + 1 := by
  simp only [superFlushRushStep, superFlushRushBet]
  split_ifs <;> simp <;> omega

/-- The base game settles a win or a loss on every hand except a push
(played, dealer qualifies, tied comparison), and stakes at least one unit. -/
theorem baseGameStep_fields (pf df : List Card) (r : ℕ) (bt : BetTotals) :
    ((baseGameStep pf df r bt).handsWon + (baseGameStep pf df r bt).handsLost =
      bt.handsWon + bt.handsLost +
        (if shouldFold pf r = false ∧ dealerQualifies df = true ∧
            compareFlushes pf df = 0 then 0 else 1)) ∧
    bt.totalBet + 1 ≤ (baseGameStep pf df r bt).totalBet := by
  constructor
  · simp only [baseGameStep]
    split_ifs <;> simp_all <;> omega
  · simp only [baseGameStep, getMaxPlayWager, anteAmount]
    split_ifs <;> simp

/-- Projections of one hand-loop step onto the three accumulators. -/
theorem handStep_proj (cfg : PayoutConfig) (r : ℕ) (pc dc : List Card)
    (st : SimAccum) :
    (handStep cfg r pc dc st).base =
      baseGameStep (findBestFlush (sortHandBySuitThenRank pc))
        (findBestFlush (sortHandBySuitThenRank dc)) r st.base ∧
    (handStep cfg r pc dc st).flushRush =
      flushRushStep (findBestFlush (sortHandBySuitThenRank pc)).length cfg
        st.flushRush ∧
    (handStep cfg r pc dc st).superFlushRush =
      superFlushRushStep
        (findLongestStraightFlush (sortHandBySuitThenRank pc)).length cfg
        st.superFlushRush :=
  ⟨rfl, rfl, rfl⟩

/-- Loop invariants of the hand loop: side bets settle once per hand, the
base game settles at most once per hand, and every category stakes at least
one unit per hand. -/
theorem simLoop_invariants (cfg : PayoutConfig) (r : ℕ) (f : ℕ → ℚ) :
    ∀ (n pos : ℕ) (st : SimAccum),
      ((simLoop cfg r f n pos st).1.flushRush.handsWon +
          (simLoop cfg r f n pos st).1.flushRush.handsLost =
        st.flushRush.handsWon + st.flushRush.handsLost + n) ∧
      ((simLoop cfg r f n pos st).1.superFlushRush.handsWon +
          (simLoop cfg r f n pos st).1.superFlushRush.handsLost =
        st.superFlushRush.handsWon + st.superFlushRush.handsLost + n) ∧
      ((simLoop cfg r f n pos st).1.base.handsWon +
          (simLoop cfg r f n pos st).1.base.handsLost ≤
        st.base.handsWon + st.base.handsLost + n) ∧
      (st.base.totalBet + n ≤ (simLoop cfg r f n pos st).1.base.totalBet) ∧
      (st.flushRush.totalBet + n ≤
        (simLoop cfg r f n pos st).1.flushRush.totalBet) ∧
      (st.superFlushRush.totalBet + n ≤
        (simLoop cfg r f n pos st).1.superFlushRush.totalBet) := by
  intro n
  induction n with
  | zero => intro pos st; simp [simLoop]
  | succ m ih =>
    intro pos st
    rw [simLoop]
    generalize shuffleDeckWithRng createDeck f pos = s
    obtain ⟨ih1, ih2, ih3, ih4, ih5, ih6⟩ :=
      ih s.2 (handStep cfg r (s.1.take 7) ((s.1.drop 7).take 7) st)
    obtain ⟨p1, p2, p3⟩ :=
      handStep_proj cfg r (s.1.take 7) ((s.1.drop 7).take 7) st
    rw [p1] at ih3 ih4
    rw [p2] at ih1 ih5
    rw [p3] at ih2 ih6
    obtain ⟨hB1, hB2⟩ := baseGameStep_fields
      (findBestFlush (sortHandBySuitThenRank (s.1.take 7)))
      (findBestFlush (sortHandBySuitThenRank ((s.1.drop 7).take 7))) r st.base
    obtain ⟨hF1, hF2⟩ := flushRushStep_fields
      (findBestFlush (sortHandBySuitThenRank (s.1.take 7))).length cfg
      st.flushRush
    obtain ⟨hS1, hS2⟩ := superFlushRushStep_fields
      (findLongestStraightFlush (sortHandBySuitThenRank (s.1.take 7))).length
      cfg st.superFlushRush
    refine ⟨?_, ?_, ?_, ?_, ?_, ?_⟩
    · rw [ih1, hF1]; omega
    · rw [ih2, hS1]; omega
    · refine ih3.trans ?_
      rw [hB1]
      split_ifs <;> omega
    · refine le_trans ?_ ih4
      push_cast
      linarith
    · refine le_trans ?_ ih5
      rw [hF2]
      push_cast
      linarith
    · refine le_trans ?_ ih6
      rw [hS2]
      push_cast
      linarith

/-- C10: a base-game push (played, dealer qualifies, tied flushes)
increments neither `handsWon` nor `handsLost`, while both side-bet
categories settle exactly once per hand; hence over an `n`-hand run the side
bets have `handsWon + handsLost = n` and the base game has
`handsWon + handsLost ≤ n`, the win-rate denominator excluding pushes. -/
theorem c10_push_accounting :
    (∀ (pf df : List Card) (r : ℕ) (bt : BetTotals),
        (baseGameStep pf df r bt).handsWon +
            (baseGameStep pf df r bt).handsLost =
          bt.handsWon + bt.handsLost +
            (if shouldFold pf r = false ∧ dealerQualifies df = true ∧
                compareFlushes pf df = 0 then 0 else 1)) ∧
    (∀ (L : ℕ) (cfg : PayoutConfig) (bt : BetTotals),
        (flushRushStep L cfg bt).handsWon +
            (flushRushStep L cfg bt).handsLost =
          bt.handsWon + bt.handsLost + 1) ∧
    (∀ (L : ℕ) (cfg : PayoutConfig) (bt : BetTotals),
        (superFlushRushStep L cfg bt).handsWon +
            (superFlushRushStep L cfg bt).handsLost =
          bt.handsWon + bt.handsLost + 1) ∧
    (∀ (n : ℕ) (cfg : PayoutConfig) (r : ℕ) (f : ℕ → ℚ),
        (performSimulationAccum n cfg r f).flushRush.handsWon +
            (performSimulationAccum n cfg r f).flushRush.handsLost = n ∧
        (performSimulationAccum n cfg r f).superFlushRush.handsWon +
            (performSimulationAccum n cfg r f).superFlushRush.handsLost = n ∧
        (performSimulationAccum n cfg r f).base.handsWon +
            (performSimulationAccum n cfg r f).base.handsLost ≤ n) := by
  refine ⟨fun pf df r bt => (baseGameStep_fields pf df r bt).1,
    fun L cfg bt => (flushRushStep_fields L cfg bt).1,
    fun L cfg bt => (superFlushRushStep_fields L cfg bt).1,
    fun n cfg r f => ?_⟩
  obtain ⟨h1, h2, h3, -⟩ := simLoop_invariants cfg r f n 0 initAccum
  exact ⟨by simpa [initAccum, zeroBT] using h1,
    by simpa [initAccum, zeroBT] using h2,
    by simpa [initAccum, zeroBT] using h3⟩

/-- C2 amended: the worker aggregator's recomputed percentages are guarded —
they are 0 whenever the merged denominator is 0 — but `performSimulation`
itself divides unguarded, so its percentages are finite (`some`) only
because every simulated hand stakes money: for `numHands ≥ 1` every
category's `expectedReturn` is a finite number, while a zero-hand run yields
`NaN` (see the counterexample). -/
theorem c2_division_guards :
    (∀ d : BetTotals, d.totalBet = 0 → mergedExpectedReturn d = 0) ∧
    (∀ d : BetTotals, d.handsWon + d.handsLost = 0 → mergedWinRate d = 0) ∧
    (∀ (n : ℕ) (cfg : PayoutConfig) (r : ℕ) (f : ℕ → ℚ), 1 ≤ n →
        ((performSimulation n cfg r f).results.all
            fun row => row.expectedReturn.isSome) = true) := by
  refine ⟨fun d h => ?_, fun d h => ?_, fun n cfg r f hn => ?_⟩
  · simp [mergedExpectedReturn, h]
  · have h1 : d.handsWon = 0 := by omega
    have h2 : d.handsLost = 0 := by omega
    simp [mergedWinRate, h1, h2]
  · obtain ⟨-, -, -, h4, h5, h6⟩ := simLoop_invariants cfg r f n 0 initAccum
    rw [show initAccum.base.totalBet = 0 from rfl, zero_add] at h4
    rw [show initAccum.flushRush.totalBet = 0 from rfl, zero_add] at h5
    rw [show initAccum.superFlushRush.totalBet = 0 from rfl, zero_add] at h6
    have hn' : (1 : ℚ) ≤ (n : ℚ) := by exact_mod_cast hn
    simp only [performSimulation, performSimulationAccum, List.all_cons,
      List.all_nil, deriveResult, jsDiv, Bool.and_eq_true, Bool.and_true]
    refine ⟨?_, ?_, ?_⟩ <;>
      · rw [if_neg (by linarith)]
        simp

/-- C2 witness: the guard and finiteness statements instantiated at the zero
totals, and at a 1-hand run with the default configuration. -/
theorem c2_division_guards_witness :
    (zeroBT.totalBet = 0 ∧ mergedExpectedReturn zeroBT = 0) ∧
    (zeroBT.handsWon + zeroBT.handsLost = 0 ∧ mergedWinRate zeroBT = 0) ∧
    (1 ≤ 1 ∧
      ((performSimulation 1 defaultPayoutConfig 9 zeroStream).results.all
          fun row => row.expectedReturn.isSome) = true) :=
  ⟨⟨rfl, c2_division_guards.1 zeroBT rfl⟩,
   ⟨rfl, c2_division_guards.2.1 zeroBT rfl⟩,
   ⟨le_refl 1,
    c2_division_guards.2.2 1 defaultPayoutConfig 9 zeroStream (le_refl 1)⟩⟩

/-- C6: on a played hand the base game resolves exactly as the spec says:
dealer fails to qualify ⇒ stake plus one ante returned and a win recorded;
dealer qualifies and the player's flush wins ⇒ twice the total wager
returned and a win recorded; tie ⇒ the total wager returned with neither a
win nor a loss recorded — where `totalWager = ante + playWager`. -/
theorem c6_base_game_resolution :
    ∀ (pf df : List Card) (r : ℕ) (bt : BetTotals),
      shouldFold pf r = false →
      (dealerQualifies df = false →
        baseGameStep pf df r bt =
          { bt with
              totalBet := bt.totalBet +
                (anteAmount + getMaxPlayWager pf.length anteAmount),
              totalWon := bt.totalWon +
                ((anteAmount + getMaxPlayWager pf.length anteAmount) +
                  anteAmount),
              handsWon := bt.handsWon + 1 }) ∧
      (dealerQualifies df = true → compareFlushes pf df > 0 →
        baseGameStep pf df r bt =
          { bt with
              totalBet := bt.totalBet +
                (anteAmount + getMaxPlayWager pf.length anteAmount),
              totalWon := bt.totalWon +
                2 * (anteAmount + getMaxPlayWager pf.length anteAmount),
              handsWon := bt.handsWon + 1 }) ∧
      (dealerQualifies df = true → compareFlushes pf df = 0 →
        baseGameStep pf df r bt =
          { bt with
              totalBet := bt.totalBet +
                (anteAmount + getMaxPlayWager pf.length anteAmount),
              totalWon := bt.totalWon +
                (anteAmount + getMaxPlayWager pf.length anteAmount) }) := by
  intro pf df r bt hfold
  refine ⟨fun hq => ?_, fun hq hcmp => ?_, fun hq hcmp => ?_⟩
  · simp [baseGameStep, hfold, hq]
  · simp only [baseGameStep, hfold, Bool.false_eq_true, if_false, hq,
      not_true, if_pos hcmp]
    simp [two_mul]
  · have h1 : ¬ compareFlushes pf df > 0 := by omega
    have h2 : ¬ compareFlushes pf df < 0 := by omega
    simp [baseGameStep, hfold, hq, h1, h2]

/-- C6 witness: the three resolution branches exercised on the played flush
`A♠K♠Q♠` (threshold 0) against a non-qualifying, a beaten-qualifying, and a
tying dealer flush. -/
theorem c6_base_game_resolution_witness :
    (shouldFold playedFlushEx 0 = false ∧ dealerQualifies dealerNoQualEx = false ∧
      baseGameStep playedFlushEx dealerNoQualEx 0 zeroBT =
        { zeroBT with
            totalBet := zeroBT.totalBet +
              (anteAmount + getMaxPlayWager playedFlushEx.length anteAmount),
            totalWon := zeroBT.totalWon +
              ((anteAmount + getMaxPlayWager playedFlushEx.length anteAmount) +
                anteAmount),
            handsWon := zeroBT.handsWon + 1 }) ∧
    (dealerQualifies dealerQualEx = true ∧ compareFlushes playedFlushEx dealerQualEx > 0 ∧
      baseGameStep playedFlushEx dealerQualEx 0 zeroBT =
        { zeroBT with
            totalBet := zeroBT.totalBet +
              (anteAmount + getMaxPlayWager playedFlushEx.length anteAmount),
            totalWon := zeroBT.totalWon +
              2 * (anteAmount + getMaxPlayWager playedFlushEx.length anteAmount),
            handsWon := zeroBT.handsWon + 1 }) ∧
    (dealerQualifies dealerTieEx = true ∧ compareFlushes playedFlushEx dealerTieEx = 0 ∧
      baseGameStep playedFlushEx dealerTieEx 0 zeroBT =
        { zeroBT with
            totalBet := zeroBT.totalBet +
              (anteAmount + getMaxPlayWager playedFlushEx.length anteAmount),
            totalWon := zeroBT.totalWon +
              (anteAmount + getMaxPlayWager playedFlushEx.length anteAmount) }) :=
  ⟨⟨by decide, by decide,
    (c6_base_game_resolution playedFlushEx dealerNoQualEx 0 zeroBT
      (by decide)).1 (by decide)⟩,
   ⟨by decide, by decide,
    (c6_base_game_resolution playedFlushEx dealerQualEx 0 zeroBT
      (by decide)).2.1 (by decide) (by decide)⟩,
   ⟨by decide, by decide,
    (c6_base_game_resolution playedFlushEx dealerTieEx 0 zeroBT
      (by decide)).2.2 (by decide) (by decide)⟩⟩

/-- Replacing position `m` with `x` and prepending the displaced element is a
permutation of prepending `x`. -/
theorem cons_set_perm {α : Type} (x : α) (t : List α) (m : ℕ)
    (hm : m < t.length) : (t[m] :: t.set m x).Perm (x :: t) := by
  rw [List.set_eq_take_cons_drop x hm]
  conv_rhs => rw [← List.take_append_drop m t, List.drop_eq_getElem_cons hm]
  refine (List.Perm.cons _ List.perm_middle).trans ?_
  exact (List.Perm.swap x (t.get ⟨m, hm⟩) _).trans
    (List.Perm.cons _ List.perm_middle.symm)

/-- The double `set` performed by the JS destructuring swap is a
permutation. -/
theorem setset_perm {α : Type} :
    ∀ (l : List α) (i j : ℕ) (hi : i < l.length) (hj : j < l.length),
      ((l.set i l[j]).set j l[i]).Perm l
  | [], _, _, hi, _ => absurd hi (by simp)
  | x :: t, 0, 0, _, _ => by simp
  | x :: t, 0, m + 1, _, hj => by
    simp only [List.set_cons_zero, List.set_cons_succ,
      List.getElem_cons_succ, List.getElem_cons_zero]
    exact cons_set_perm x t m (by simpa using hj)
  | x :: t, n + 1, 0, hi, _ => by
    simp only [List.set_cons_zero, List.set_cons_succ,
      List.getElem_cons_succ, List.getElem_cons_zero]
    exact cons_set_perm x t n (by simpa using hi)
  | x :: t, n + 1, m + 1, hi, hj => by
    simp only [List.set_cons_succ, List.getElem_cons_succ]
    exact List.Perm.cons x
      (setset_perm t n m (by simpa using hi) (by simpa using hj))

/-- The JS swap is a permutation for any pair of indices. -/
theorem swapList_perm (l : List Card) (i j : ℕ) : (swapList l i j).Perm l := by
  unfold swapList
  cases hi : l[i]? with
  | none => exact List.Perm.refl l
  | some a =>
    cases hj : l[j]? with
    | none => exact List.Perm.refl l
    | some b =>
      obtain ⟨hi', rfl⟩ := List.getElem?_eq_some.mp hi
      obtain ⟨hj', rfl⟩ := List.getElem?_eq_some.mp hj
      exact setset_perm l i j hi' hj'

/-- Fisher–Yates yields a permutation of its input. -/
theorem fisherYates_perm (f : ℕ → ℚ) :
    ∀ (fuel pos : ℕ) (l : List Card), ((fisherYates f fuel pos l).1).Perm l
  | 0, _, l => List.Perm.refl l
  | i + 1, pos, l =>
    (fisherYates_perm f i (pos + 1) _).trans (swapList_perm l (i + 1) _)

/-- C4: the shuffle returns a permutation of its input deck — the multiset of
`(rank, suit)` pairs is preserved — and on the canonical deck the output has
52 pairwise-distinct cards.  (The embedding operates on an immutable copy of
the deck, as does the source, which spreads the input before swapping.) -/
theorem c4_shuffle_permutation :
    ∀ (deck : List Card) (f : ℕ → ℚ) (pos : ℕ),
      (∀ k, 0 ≤ f k ∧ f k < 1) →
      ((shuffleDeckWithRng deck f pos).1 : Multiset Card) =
          (deck : Multiset Card) ∧
      (shuffleDeckWithRng deck f pos).1.length = deck.length ∧
      (shuffleDeckWithRng createDeck f pos).1.length = 52 ∧
      (shuffleDeckWithRng createDeck f pos).1.Nodup := by
  intro deck f pos _
  have hperm : ∀ d : List Card, ((shuffleDeckWithRng d f pos).1).Perm d :=
    fun d => fisherYates_perm f _ _ _
  refine ⟨Multiset.coe_eq_coe.mpr (hperm deck), (hperm deck).length_eq, ?_, ?_⟩
  · rw [(hperm createDeck).length_eq]; rfl
  · exact (hperm createDeck).symm.nodup (by decide)

/-- C4 witness: the permutation property instantiated on the canonical deck
with the constant in-range RNG stream 1/2. -/
theorem c4_shuffle_permutation_witness :
    (∀ k, 0 ≤ halfStream k ∧ halfStream k < 1) ∧
    ((shuffleDeckWithRng createDeck halfStream 0).1 : Multiset Card) =
      (createDeck : Multiset Card) :=
  ⟨fun _ => ⟨by norm_num [halfStream], by norm_num [halfStream]⟩,
   (c4_shuffle_permutation createDeck halfStream 0
      fun _ => ⟨by norm_num [halfStream], by norm_num [halfStream]⟩).1⟩

/-- `getSuitOrder` is injective. -/
theorem getSuitOrder_injective :
    ∀ s t : Suit, getSuitOrder s = getSuitOrder t → s = t := by
  intro s t
  cases s <;> cases t <;> simp [getSuitOrder]

instance : IsTotal Card cardBefore := ⟨by
  intro a b
  rcases Nat.lt_trichotomy (getSuitOrder a.suit) (getSuitOrder b.suit) with
    h | h | h
  · exact Or.inl (Or.inl h)
  · have hs : a.suit = b.suit := getSuitOrder_injective _ _ h
    rcases Nat.le_total a.rank b.rank with hr | hr
    · exact Or.inr (Or.inr ⟨hs.symm, hr⟩)
    · exact Or.inl (Or.inr ⟨hs, hr⟩)
  · exact Or.inr (Or.inl h)⟩

instance : IsTrans Card cardBefore := ⟨by
  intro a b c hab hbc
  rcases hab with h1 | ⟨hs1, hr1⟩ <;> rcases hbc with h2 | ⟨hs2, hr2⟩
  · exact Or.inl (h1.trans h2)
  · exact Or.inl (lt_of_lt_of_eq h1 (congrArg getSuitOrder hs2))
  · exact Or.inl (lt_of_eq_of_lt (congrArg getSuitOrder hs1) h2)
  · exact Or.inr ⟨hs1.trans hs2, hr2.trans hr1⟩⟩

/-- A fold whose step always returns one of its two arguments yields the
accumulator or a member of the list. -/
theorem foldl_choice {α : Type} (f : α → α → α)
    (hf : ∀ a b, f a b = a ∨ f a b = b) :
    ∀ (l : List α) (acc : α), l.foldl f acc = acc ∨ l.foldl f acc ∈ l
  | [], _ => Or.inl rfl
  | x :: xs, acc => by
    rcases foldl_choice f hf xs (f acc x) with h | h
    · rcases hf acc x with h' | h'
      · exact Or.inl (by rw [List.foldl_cons, h, h'])
      · refine Or.inr ?_
        rw [List.foldl_cons, h, h']
        exact List.mem_cons_self x xs
    · exact Or.inr (List.mem_cons_of_mem x h)

/-- Every suit in the `suitGroups` key list is the suit of some card. -/
theorem suitKeys_exists_card :
    ∀ (cards : List Card) (acc : List Suit) (s : Suit),
      s ∈ cards.foldl
        (fun acc c => if c.suit ∈ acc then acc else acc ++ [c.suit]) acc →
      s ∈ acc ∨ ∃ c ∈ cards, c.suit = s
  | [], _, _, h => Or.inl h
  | x :: xs, acc, s, h => by
    rw [List.foldl_cons] at h
    rcases suitKeys_exists_card xs _ s h with h' | ⟨c, hc, hcs⟩
    · by_cases hx : x.suit ∈ acc
      · rw [if_pos hx] at h'
        exact Or.inl h'
      · rw [if_neg hx] at h'
        rcases List.mem_append.mp h' with h'' | h''
        · exact Or.inl h''
        · exact Or.inr ⟨x, List.mem_cons_self x xs,
            (List.mem_singleton.mp h'').symm⟩
    · exact Or.inr ⟨c, List.mem_cons_of_mem x hc, hcs⟩

/-- The key-collection fold never empties a nonempty accumulator. -/
theorem suitKeys_foldl_ne_nil :
    ∀ (cards : List Card) (acc : List Suit), acc ≠ [] →
      cards.foldl
        (fun acc c => if c.suit ∈ acc then acc else acc ++ [c.suit]) acc ≠ []
  | [], _, h => h
  | x :: xs, acc, h => by
    rw [List.foldl_cons]
    apply suitKeys_foldl_ne_nil xs
    split_ifs
    · exact h
    · simp

/-- Every suit group is nonempty. -/
theorem suitGroups_mem_ne_nil (cards : List Card) (g : List Card)
    (hg : g ∈ suitGroupsOf cards) : g ≠ [] := by
  obtain ⟨s, hs, rfl⟩ := List.mem_map.mp hg
  rcases suitKeys_exists_card cards [] s hs with h | ⟨c, hc, hcs⟩
  · simp at h
  · intro hnil
    have : c ∈ cards.filter fun c => c.suit = s :=
      List.mem_filter.mpr ⟨hc, by simp [hcs]⟩
    rw [hnil] at this
    simp at this

/-- `findBestFlush`'s reduce never returns the empty flush once a nonempty
group exists. -/
theorem bestFlush_foldl_ne_nil :
    ∀ (gs : List (List Card)) (acc : List Card),
      (∀ g ∈ gs, g ≠ []) → (acc ≠ [] ∨ gs ≠ []) →
      gs.foldl
        (fun best cur => if compareFlushes cur best > 0 then cur else best)
        acc ≠ []
  | [], acc, _, h => by
    rcases h with h | h
    · exact h
    · exact absurd rfl h
  | g :: gs, acc, hgs, _ => by
    rw [List.foldl_cons]
    apply bestFlush_foldl_ne_nil gs _
      (fun g' hg' => hgs g' (List.mem_cons_of_mem _ hg'))
    left
    have hg : g ≠ [] := hgs g (List.mem_cons_self g gs)
    by_cases hacc : acc = []
    · subst hacc
      rw [if_pos ?_]
      · exact hg
      · cases g with
        | nil => exact absurd rfl hg
        | cons c cs =>
          simp only [compareFlushes, List.length_cons, List.length_nil]
          rw [if_pos (by push_cast; omega)]
          push_cast
          omega
    · split_ifs with hcmp
      · exact hg
      · exact hacc

/-- C9: on a (duplicate-free, as dealt from a deck) hand sorted by
`sortHandBySuitThenRank`, `findBestFlush` returns a single-suited list with
strictly decreasing ranks, nonempty whenever the hand is. -/
theorem c9_best_flush_invariants :
    ∀ (hand : List Card), hand.Nodup →
      allSameSuit (findBestFlush (sortHandBySuitThenRank hand)) = true ∧
      List.Pairwise (fun a b : Card => b.rank < a.rank)
        (findBestFlush (sortHandBySuitThenRank hand)) ∧
      (hand ≠ [] → findBestFlush (sortHandBySuitThenRank hand) ≠ []) := by
  intro hand hnd
  have hsort : (sortHandBySuitThenRank hand).Sorted cardBefore :=
    List.sorted_insertionSort cardBefore hand
  have hperm : (sortHandBySuitThenRank hand).Perm hand :=
    List.perm_insertionSort cardBefore hand
  have hndup : (sortHandBySuitThenRank hand).Nodup := hperm.symm.nodup hnd
  have hgroup : ∀ g ∈ suitGroupsOf (sortHandBySuitThenRank hand),
      allSameSuit g = true ∧
      List.Pairwise (fun a b : Card => b.rank < a.rank) g := by
    intro g hg
    obtain ⟨s, _, rfl⟩ := List.mem_map.mp hg
    have hsub : List.Sublist
        ((sortHandBySuitThenRank hand).filter fun c => c.suit = s)
        (sortHandBySuitThenRank hand) :=
      List.filter_sublist _
    have hsame : ∀ c ∈ (sortHandBySuitThenRank hand).filter
        (fun c => c.suit = s), c.suit = s := by
      intro c hc
      have := (List.mem_filter.mp hc).2
      simpa using this
    have hpair : List.Pairwise cardBefore
        ((sortHandBySuitThenRank hand).filter fun c => c.suit = s) :=
      hsort.sublist hsub
    have hne : List.Pairwise (fun a b : Card => a ≠ b)
        ((sortHandBySuitThenRank hand).filter fun c => c.suit = s) :=
      hndup.sublist hsub
    constructor
    · cases hflt : (sortHandBySuitThenRank hand).filter
        (fun c => c.suit = s) with
      | nil => rfl
      | cons c cs =>
        have hcmem : c ∈ (sortHandBySuitThenRank hand).filter
            (fun c => c.suit = s) := by
          rw [hflt]
          exact List.mem_cons_self c cs
        have hcs : c.suit = s := hsame c hcmem
        simp only [allSameSuit, List.all_eq_true]
        intro d hd
        have hdmem : d ∈ (sortHandBySuitThenRank hand).filter
            (fun c => c.suit = s) := by
          rw [hflt]
          exact List.mem_cons_of_mem c hd
        have hds : d.suit = s := hsame d hdmem
        simp [hds, hcs]
    · refine (hpair.and hne).imp_of_mem ?_
      intro a b ha hb hab
      have has : a.suit = s := hsame a ha
      have hbs : b.suit = s := hsame b hb
      rcases hab.1 with h | ⟨_, hr⟩
      · exact absurd (by rw [has, hbs]) (Nat.ne_of_lt h)
      · rcases Nat.lt_or_ge b.rank a.rank with h' | h'
        · exact h'
        · exfalso
          apply hab.2
          have hrank : a.rank = b.rank := le_antisymm h' hr
          have hsuit : a.suit = b.suit := by rw [has, hbs]
          cases a
          cases b
          simp_all
  have hres := foldl_choice
    (fun best cur => if compareFlushes cur best > 0 then cur else best)
    (fun a b => by
      by_cases h : compareFlushes b a > 0
      · exact Or.inr (if_pos h)
      · exact Or.inl (if_neg h))
    (suitGroupsOf (sortHandBySuitThenRank hand)) []
  refine ⟨?_, ?_, ?_⟩
  · rcases hres with h | h
    · rw [findBestFlush, h]; rfl
    · exact (hgroup _ h).1
  · rcases hres with h | h
    · rw [findBestFlush, h]; exact List.Pairwise.nil
    · exact (hgroup _ h).2
  · intro hne
    have hsne : sortHandBySuitThenRank hand ≠ [] := by
      intro h0
      exact hne (List.eq_nil_of_length_eq_zero
        (by rw [← hperm.length_eq, h0]; rfl))
    apply bestFlush_foldl_ne_nil _ _
      (fun g hg => suitGroups_mem_ne_nil _ g hg)
    right
    cases hcards : sortHandBySuitThenRank hand with
    | nil => exact absurd hcards hsne
    | cons c cs =>
      intro hmapnil
      simp only [suitGroupsOf] at hmapnil
      have hkeys : suitKeys (c :: cs) = [] :=
        List.map_eq_nil_iff.mp hmapnil
      have hne' : suitKeys (c :: cs) ≠ [] := by
        show (c :: cs).foldl
          (fun acc d => if d.suit ∈ acc then acc else acc ++ [d.suit]) [] ≠ []
        rw [List.foldl_cons]
        apply suitKeys_foldl_ne_nil
        simp
      exact hne' hkeys

/-- C9 witness: the invariants instantiated on a concrete 7-card hand with a
4-card spade flush and a 3-card heart flush. -/
theorem c9_best_flush_invariants_witness :
    c9HandEx.Nodup ∧
    allSameSuit (findBestFlush (sortHandBySuitThenRank c9HandEx)) = true ∧
    (c9HandEx ≠ [] →
      findBestFlush (sortHandBySuitThenRank c9HandEx) ≠ []) :=
  ⟨by decide, (c9_best_flush_invariants c9HandEx (by decide)).1,
   (c9_best_flush_invariants c9HandEx (by decide)).2.2⟩

/-- The keep-the-longer fold computes the maximum of the candidate
lengths. -/
theorem keepLonger_foldl_length :
    ∀ (cands : List (List Card)) (acc : List Card),
      (cands.foldl keepLonger acc).length =
        (cands.map List.length).foldl max acc.length
  | [], _ => rfl
  | c :: cs, acc => by
    rw [List.foldl_cons, List.map_cons, List.foldl_cons,
      keepLonger_foldl_length cs]
    congr 1
    unfold keepLonger
    split_ifs <;> omega

/-- `foldl max` over an arbitrary initial value. -/
theorem foldl_max_init :
    ∀ (l : List ℕ) (a : ℕ), l.foldl max a = max a (l.foldl max 0)
  | [], a => by simp
  | x :: xs, a => by
    rw [List.foldl_cons, List.foldl_cons, foldl_max_init xs (max a x),
      foldl_max_init xs (max 0 x)]
    omega

/-- One `lsfStep` takes the maximum of the running length and the gated
per-suit length. -/
theorem lsfStep_length (acc g : List Card) :
    (lsfStep acc g).length = max acc.length (amendedSuitLen g) := by
  simp only [lsfStep, amendedSuitLen, apply_ite List.length]
  by_cases h1 : g.length < 3
  · simp [h1]
  · simp only [h1, if_false]
    rw [keepLonger_foldl_length, foldl_max_init]
    split_ifs with h2 h3 <;> omega

/-- The `findLongestStraightFlush` fold computes the maximum of the gated
per-suit lengths. -/
theorem lsf_foldl_length :
    ∀ (gs : List (List Card)) (acc : List Card),
      (gs.foldl lsfStep acc).length =
        (gs.map amendedSuitLen).foldl max acc.length
  | [], _ => rfl
  | g :: gs, acc => by
    rw [List.foldl_cons, List.map_cons, List.foldl_cons, lsf_foldl_length gs,
      lsfStep_length]

/-- The straight-extension scan only picks cards of its input. -/
theorem runFrom_subset :
    ∀ (cur : ℤ) (l : List Card) (c : Card), c ∈ runFrom cur l → c ∈ l
  | _, [], c, h => absurd h (List.not_mem_nil c)
  | cur, x :: xs, c, h => by
    unfold runFrom at h
    split_ifs at h with h1 h2
    · rcases List.mem_cons.mp h with rfl | h'
      · exact List.mem_cons_self _ _
      · exact List.mem_cons_of_mem _ (runFrom_subset _ xs c h')
    · exact absurd h (List.not_mem_nil c)
    · exact List.mem_cons_of_mem _ (runFrom_subset _ xs c h)

/-- Every started straight is made of cards of the suit group. -/
theorem straightsFrom_subset :
    ∀ (l cand : List Card), cand ∈ straightsFrom l → ∀ c ∈ cand, c ∈ l
  | [], _, h => absurd h (List.not_mem_nil _)
  | x :: xs, cand, h => by
    rcases List.mem_cons.mp h with rfl | h'
    · intro c hc
      rcases List.mem_cons.mp hc with rfl | hc'
      · exact List.mem_cons_self _ _
      · exact List.mem_cons_of_mem _ (runFrom_subset _ xs c hc')
    · intro c hc
      exact List.mem_cons_of_mem _ (straightsFrom_subset xs cand h' c hc)

/-- The ace-low scan only picks cards of its input. -/
theorem wheelScan_subset :
    ∀ (e : ℕ) (l : List Card) (c : Card), c ∈ wheelScan e l → c ∈ l
  | _, [], c, h => absurd h (List.not_mem_nil c)
  | e, x :: xs, c, h => by
    unfold wheelScan at h
    split_ifs at h with h1 h2
    · exact absurd h (List.not_mem_nil c)
    · rcases List.mem_cons.mp h with rfl | h'
      · exact List.mem_cons_self _ _
      · exact List.mem_cons_of_mem _ (wheelScan_subset _ xs c h')
    · exact absurd h (List.not_mem_nil c)

/-- The ace-low candidate is made of cards of the suit group. -/
theorem aceLowCandidate_subset (g : List Card) (c : Card)
    (hc : c ∈ aceLowCandidate g) : c ∈ g := by
  cases g with
  | nil => exact absurd hc (List.not_mem_nil c)
  | cons ace rest =>
    simp only [aceLowCandidate] at hc
    split_ifs at hc with h
    · rcases List.mem_cons.mp hc with rfl | h'
      · exact List.mem_cons_self _ _
      · have h'' : c ∈ wheelScan 2 rest.reverse :=
          (List.mem_insertionSort rankLE).mp h'
        exact List.mem_cons_of_mem _
          (List.mem_reverse.mp (wheelScan_subset 2 rest.reverse c h''))
    · exact absurd hc (List.not_mem_nil c)

/-- A list whose cards all share one suit passes `allSameSuit`. -/
theorem allSameSuit_of_suit_eq (l : List Card) (s : Suit)
    (h : ∀ c ∈ l, c.suit = s) : allSameSuit l = true := by
  cases l with
  | nil => rfl
  | cons c cs =>
    simp only [allSameSuit, List.all_eq_true]
    intro d hd
    have hds := h d (List.mem_cons_of_mem c hd)
    have hcs := h c (List.mem_cons_self c cs)
    simp [hds, hcs]

/-- `lsfStep` preserves single-suitedness of the running longest straight
flush. -/
theorem lsfStep_sameSuit (acc g : List Card) (s : Suit)
    (hacc : allSameSuit acc = true) (hg : ∀ c ∈ g, c.suit = s) :
    allSameSuit (lsfStep acc g) = true := by
  have hmain : ∀ cand ∈ straightsFrom (sortDescByRank g),
      ∀ c ∈ cand, c.suit = s := by
    intro cand hcand c hc
    exact hg c ((List.mem_insertionSort rankGE).mp
      (straightsFrom_subset _ cand hcand c hc))
  simp only [lsfStep]
  split_ifs with h1 h2
  · exact hacc
  · apply allSameSuit_of_suit_eq _ s
    intro c hc
    exact hg c ((List.mem_insertionSort rankGE).mp
      (aceLowCandidate_subset _ c hc))
  · rcases foldl_choice keepLonger
        (fun a b => by
          unfold keepLonger
          split_ifs
          · exact Or.inr rfl
          · exact Or.inl rfl)
        (straightsFrom (sortDescByRank g)) acc with h | h
    · rw [h]; exact hacc
    · exact allSameSuit_of_suit_eq _ s (hmain _ h)

/-- The `findLongestStraightFlush` fold preserves single-suitedness. -/
theorem lsf_foldl_sameSuit :
    ∀ (gs : List (List Card)) (acc : List Card),
      allSameSuit acc = true →
      (∀ g ∈ gs, ∃ s, ∀ c ∈ g, c.suit = s) →
      allSameSuit (gs.foldl lsfStep acc) = true
  | [], _, hacc, _ => hacc
  | g :: gs, acc, hacc, hgs => by
    rw [List.foldl_cons]
    apply lsf_foldl_sameSuit gs
    · obtain ⟨s, hs⟩ := hgs g (List.mem_cons_self g gs)
      exact lsfStep_sameSuit acc g s hacc hs
    · exact fun g' hg' => hgs g' (List.mem_cons_of_mem _ hg')

/-- C5 counterexample: on `[A♠,2♠,9♠,7♥,6♥,3♦,10♣]` the code returns a
1-card straight flush (it skips the 2-card hearts group and drops the
2-card `A♠2♠` wheel), while the claim's every-group any-length-≥1 maximum
is 2. -/
theorem c5_counterexample :
    (findLongestStraightFlush mixedSuitHandEx).length = 1 ∧
    specLSFLenClaim mixedSuitHandEx = 2 ∧
    (findLongestStraightFlush mixedSuitHandEx).length ≠
      specLSFLenClaim mixedSuitHandEx := by
  refine ⟨by decide, by decide, by decide⟩

/-- C5 amended: `findLongestStraightFlush` returns the maximum over suit
groups **holding at least 3 cards** of the longest consecutive
descending-rank run and the ace-low wheel run **of length ≥ 3**; it returns
5 on the ace-low wheel, 4 on `[7♠,6♠,5♠,4♠]`, and never combines cards of
different suits. -/
theorem c5_longest_straight_flush :
    (∀ cards : List Card,
        (findLongestStraightFlush cards).length = specLSFLen cards) ∧
    (findLongestStraightFlush wheelHandEx).length = 5 ∧
    (findLongestStraightFlush fourSpadesEx).length = 4 ∧
    (∀ cards : List Card,
        allSameSuit (findLongestStraightFlush cards) = true) := by
  refine ⟨fun cards => ?_, by decide, by decide, fun cards => ?_⟩
  · unfold findLongestStraightFlush specLSFLen
    exact lsf_foldl_length _ []
  · unfold findLongestStraightFlush
    apply lsf_foldl_sameSuit _ [] rfl
    intro g hg
    obtain ⟨s, _, rfl⟩ := List.mem_map.mp hg
    exact ⟨s, fun c hc => by simpa using (List.mem_filter.mp hc).2⟩

/-- Adding the zero accumulator is the identity. -/
theorem addBT_zero (bt : BetTotals) : addBT zeroBT bt = bt := by
  cases bt
  simp [addBT, zeroBT]

/-- `foldl addBT` over an arbitrary initial accumulator. -/
theorem foldl_addBT_init :
    ∀ (l : List BetTotals) (x : BetTotals),
      l.foldl addBT x = addBT x (l.foldl addBT zeroBT)
  | [], x => by cases x; simp [addBT, zeroBT]
  | b :: bs, x => by
    rw [List.foldl_cons, List.foldl_cons, foldl_addBT_init bs (addBT x b),
      foldl_addBT_init bs (addBT zeroBT b), addBT_zero]
    cases x
    cases b
    simp [addBT, add_assoc]

/-- Merging one worker's three result rows into an empty totals map yields
the three keyed accumulators. -/
theorem mergeRows_nil (n : ℕ) (cfg : PayoutConfig) (r : ℕ) (f : ℕ → ℚ) :
    (performSimulation n cfg r f).results.foldl mergeRow [] =
      [(BetType.baseGame, (performSimulationAccum n cfg r f).base),
       (BetType.flushRushBonus, (performSimulationAccum n cfg r f).flushRush),
       (BetType.superFlushRushBonus,
        (performSimulationAccum n cfg r f).superFlushRush)] := by
  simp only [performSimulation]
  simp [mergeRow, getAssoc, setAssoc, rowTotals, deriveResult, addBT_zero]

/-- Merging one worker's three result rows into the canonical three-key
totals map adds field-wise. -/
theorem mergeRows_canonical (x y z : BetTotals) (n : ℕ) (cfg : PayoutConfig)
    (r : ℕ) (f : ℕ → ℚ) :
    (performSimulation n cfg r f).results.foldl mergeRow
      [(BetType.baseGame, x), (BetType.flushRushBonus, y),
       (BetType.superFlushRushBonus, z)] =
      [(BetType.baseGame, addBT x (performSimulationAccum n cfg r f).base),
       (BetType.flushRushBonus,
        addBT y (performSimulationAccum n cfg r f).flushRush),
       (BetType.superFlushRushBonus,
        addBT z (performSimulationAccum n cfg r f).superFlushRush)] := by
  simp only [performSimulation]
  simp [mergeRow, getAssoc, setAssoc, rowTotals, deriveResult]

/-- The totals-map fold over all worker parts computes the three field-wise
sums. -/
theorem mergeParts_go (cfg : PayoutConfig) (r : ℕ) :
    ∀ (pairs : List (ℕ × ℕ)) (x y z : BetTotals),
      (pairs.map fun p => performSimulation p.1 cfg r (mulberry32 p.2)).foldl
        (fun m part => part.results.foldl mergeRow m)
        [(BetType.baseGame, x), (BetType.flushRushBonus, y),
         (BetType.superFlushRushBonus, z)] =
      [(BetType.baseGame,
        ((pairs.map (partAccum cfg r)).map SimAccum.base).foldl addBT x),
       (BetType.flushRushBonus,
        ((pairs.map (partAccum cfg r)).map SimAccum.flushRush).foldl addBT y),
       (BetType.superFlushRushBonus,
        ((pairs.map (partAccum cfg r)).map SimAccum.superFlushRush).foldl
          addBT z)]
  | [], _, _, _ => rfl
  | p :: ps, x, y, z => by
    simp only [List.map_cons, List.foldl_cons]
    rw [mergeRows_canonical x y z p.1 cfg r (mulberry32 p.2)]
    exact mergeParts_go cfg r ps _ _ _

/-- C7: aggregating the worker parts is the pure field-wise sum of the
per-category accumulators of the `k` independently-run simulations of the
given per-worker hand counts and seeds, with `expectedReturn`/`winRate`
recomputed once from the merged totals (and the hand-distribution counts
summed likewise). -/
theorem c7_worker_aggregation :
    ∀ (cfg : PayoutConfig) (r : ℕ) (pairs : List (ℕ × ℕ)), pairs ≠ [] →
      aggregateParts
        (pairs.map fun p => performSimulation p.1 cfg r (mulberry32 p.2)) =
      specAggregatedSummary cfg r pairs := by
  intro cfg r pairs hne
  unfold aggregateParts specAggregatedSummary
  have hTot : (pairs.map fun p =>
      performSimulation p.1 cfg r (mulberry32 p.2)).foldl
        (fun a p => a + p.handDistribution.totalHands) 0 =
      pairs.foldl (fun a p => a + p.1) 0 := by
    rw [List.foldl_map]
    rfl
  have hAb : (pairs.map fun p =>
      performSimulation p.1 cfg r (mulberry32 p.2)).foldl
        (fun a p => a + p.handDistribution.aboveMinimum) 0 =
      pairs.foldl (fun a p => a + (partAccum cfg r p).aboveMin) 0 := by
    rw [List.foldl_map]
    rfl
  have hBe : (pairs.map fun p =>
      performSimulation p.1 cfg r (mulberry32 p.2)).foldl
        (fun a p => a + p.handDistribution.belowMinimum) 0 =
      pairs.foldl (fun a p => a + (partAccum cfg r p).belowMin) 0 := by
    rw [List.foldl_map]
    rfl
  have hM : mergeParts
      (pairs.map fun p => performSimulation p.1 cfg r (mulberry32 p.2)) =
      [(BetType.baseGame, sumBT ((pairs.map (partAccum cfg r)).map
          SimAccum.base)),
       (BetType.flushRushBonus, sumBT ((pairs.map (partAccum cfg r)).map
          SimAccum.flushRush)),
       (BetType.superFlushRushBonus, sumBT ((pairs.map (partAccum cfg r)).map
          SimAccum.superFlushRush))] := by
    cases pairs with
    | nil => exact absurd rfl hne
    | cons p ps =>
      unfold mergeParts
      simp only [List.map_cons, List.foldl_cons]
      rw [mergeRows_nil p.1 cfg r (mulberry32 p.2)]
      rw [mergeParts_go cfg r ps]
      unfold sumBT
      simp only [List.map_cons, List.foldl_cons, addBT_zero]
      rfl
  rw [hM, hTot, hAb, hBe]
  rfl

/-- C7 witness: the aggregation equality instantiated on two workers with
hand counts 1 and 2 and derived seeds 1 and 7. -/
theorem c7_worker_aggregation_witness :
    ([((1 : ℕ), (1 : ℕ)), ((2 : ℕ), (7 : ℕ))] : List (ℕ × ℕ)) ≠ [] ∧
    aggregateParts
      ([((1 : ℕ), (1 : ℕ)), ((2 : ℕ), (7 : ℕ))].map fun p =>
        performSimulation p.1 defaultPayoutConfig 9 (mulberry32 p.2)) =
      specAggregatedSummary defaultPayoutConfig 9
        [((1 : ℕ), (1 : ℕ)), ((2 : ℕ), (7 : ℕ))] :=
  ⟨by decide,
   c7_worker_aggregation defaultPayoutConfig 9
     [((1 : ℕ), (1 : ℕ)), ((2 : ℕ), (7 : ℕ))] (by decide)⟩

end ILuvSuits
